import Mathlib

/-!
Shallow embedding of `src/wood.cpp`: a small inventory of wood items, each
carrying an ordered list of processing actions that mutate the item's
moisture and treatment state.  C++ `double` values are modelled as exact
rationals; owning raw pointers become plain values; the `std::vector`
fields become Lean lists.
-/

namespace Wood

/-- The four concrete subclasses of `WoodAction` in `wood.cpp`, as a closed
inductive type.  `CutWood` stores a cut length, `ConditionalTreatment`
exclusively owns a wrapped inner action together with a condition kind and
threshold. -/
inductive WoodAction where
  | cutWood (cut_length : ℚ)
  | dryWood
  | treatWood
  | conditionalTreatment (inner_action : WoodAction) (condition_type : String)
      (condition_value : ℚ)
  deriving DecidableEq, Repr

/-- `WoodItem` from `wood.cpp`: species text, thickness, moisture content,
treatment flag and the owned ordered sequence of processing steps. -/
structure WoodItem where
  type : String
  thickness : ℚ
  moisture_content : ℚ
  is_treated : Bool
  processing_steps : List WoodAction
  deriving DecidableEq, Repr

/-- `WoodAction::perform`, by case on the concrete subclass:
`CutWood::perform` is a no-op; `DryWood::perform` sets
`moisture_content := moisture_content * 0.8`; `TreatWood::perform` sets
`is_treated := true`; `ConditionalTreatment::perform` delegates to the
inner action exactly when the condition kind is the string
`"MoistureAbove"` and the item's moisture is strictly above the threshold,
and otherwise does nothing. -/
def perform : WoodAction → WoodItem → WoodItem
  | WoodAction.cutWood _, item => item
  | WoodAction.dryWood, item =>
      { item with moisture_content := item.moisture_content * 0.8 }
  | WoodAction.treatWood, item =>
      { item with is_treated := true }
  | WoodAction.conditionalTreatment inner cond val, item =>
      if cond = "MoistureAbove" ∧ item.moisture_content > val then
        perform inner item
      else
        item

/-- The loop body of `WoodItem::process`: apply each step of the list in
order to the evolving item state. -/
def processSteps : List WoodAction → WoodItem → WoodItem
  | [], item => item
  | step :: rest, item => processSteps rest (perform step item)

/-- `WoodItem::process`: iterate the item's own `processing_steps` in
construction order, invoking `perform` on each in turn. -/
def WoodItem.process (item : WoodItem) : WoodItem :=
  processSteps item.processing_steps item

/-- `n` successive invocations of `WoodItem::process` on the same item. -/
def processN : Nat → WoodItem → WoodItem
  | 0, item => item
  | n + 1, item => processN n item.process

/-- `WoodInventory` from `wood.cpp`: an ordered sequence of owned items. -/
structure WoodInventory where
  items : List WoodItem
  deriving Repr

/-- `WoodInventory::addItem`: appends the item at the end of the sequence. -/
def WoodInventory.addItem (inv : WoodInventory) (item : WoodItem) : WoodInventory :=
  { inv with items := inv.items ++ [item] }

/-- `WoodInventory::getItems`: the read-only accessor for the item sequence. -/
def WoodInventory.getItems (inv : WoodInventory) : List WoodItem :=
  inv.items

/-- `WoodInventory::processAll`: process every item in insertion order. -/
def WoodInventory.processAll (inv : WoodInventory) : WoodInventory :=
  { inv with items := inv.items.map WoodItem.process }

/-- A freshly constructed, empty `WoodInventory`. -/
def emptyInventory : WoodInventory := ⟨[]⟩

/-- A sequence of `addItem` calls, one per element of the list, in order. -/
def addItems (inv : WoodInventory) (l : List WoodItem) : WoodInventory :=
  l.foldl WoodInventory.addItem inv

/-- Modelled from the spec: the test harness header `test1.h` is not under
`src/`.  Per the spec, the run invocation executes a named case, records
its boolean success indicator and reports pass or fail to the output
stream; it does not affect control flow.  The report is modelled as the
qualified case name paired with the outcome. -/
def runTest (group : String) (caseName : String) (outcome : Bool) : String × Bool :=
  (group ++ "." ++ caseName, outcome)

/-- Modelled from the spec: `main` in `wood.cpp` runs the six registered
cases through the run invocation and then executes `return 0`, so the exit
code does not depend on the outcomes.  The six outcomes are parameters so
that every possible pass or fail combination is covered; the result is the
list of reports together with the exit code. -/
def mainRun (r1 r2 r3 r4 r5 r6 : Bool) : List (String × Bool) × Int :=
  ([runTest "WoodTest" "AddSingleItem" r1,
    runTest "WoodTest" "MultipleItemsCount" r2,
    runTest "WoodTest" "ProcessDrying" r3,
    runTest "WoodTest" "ConditionalTreat" r4,
    runTest "WoodTest" "ThicknessUnchangedAfterProcessing" r5,
    runTest "WoodTest" "UntreatedWhenMoistureBelowThreshold" r6], 0)

/-- Test case `WoodTest.AddSingleItem` from `wood.cpp`: one Oak item with a
single `CutWood` step; asserts the inventory has one item of type Oak. -/
def testAddSingleItem : Bool :=
  let inv := emptyInventory.addItem ⟨"Oak", 25, 12.5, false, [WoodAction.cutWood 2.5]⟩
  let items := inv.getItems
  decide (items.length = 1) &&
    (match items.get? 0 with
     | some it => decide (it.type = "Oak")
     | none => false)

/-- Test case `WoodTest.MultipleItemsCount` from `wood.cpp`: two items are
added; asserts the inventory size is 2. -/
def testMultipleItemsCount : Bool :=
  let inv := (emptyInventory.addItem ⟨"Pine", 20, 10, false, []⟩).addItem
    ⟨"Maple", 30, 8, true, []⟩
  decide (inv.getItems.length = 2)

/-- Test case `WoodTest.ProcessDrying` from `wood.cpp`: a Teak item with a
`DryWood` step; asserts moisture strictly decreased after `processAll`. -/
def testProcessDrying : Bool :=
  let teak : WoodItem := ⟨"Teak", 15, 15, false, [WoodAction.dryWood]⟩
  let inv := (emptyInventory.addItem teak).processAll
  match inv.getItems.get? 0 with
  | some it => decide (it.moisture_content < teak.moisture_content)
  | none => false

/-- Test case `WoodTest.ConditionalTreatment` from `wood.cpp`: a Walnut
item at moisture 12 with a conditional treatment thresholded at 10;
asserts the item ends up treated. -/
def testConditionalTreatment : Bool :=
  let steps := [WoodAction.conditionalTreatment WoodAction.treatWood "MoistureAbove" 10]
  let inv := (emptyInventory.addItem ⟨"Walnut", 18, 12, false, steps⟩).processAll
  match inv.getItems.get? 0 with
  | some it => it.is_treated
  | none => false

/-- Test case `WoodTest.ThicknessUnchangedAfterProcessing` from `wood.cpp`:
a Mahogany item with `DryWood` then `TreatWood`; asserts thickness is still
20 after `processAll`. -/
def testThicknessUnchanged : Bool :=
  let steps := [WoodAction.dryWood, WoodAction.treatWood]
  let inv := (emptyInventory.addItem ⟨"Mahogany", 20, 14, false, steps⟩).processAll
  match inv.getItems.get? 0 with
  | some it => decide (it.thickness = 20)
  | none => false

/-- Test case `WoodTest.UntreatedWhenMoistureBelowThreshold` from
`wood.cpp`: a Cedar item at moisture 12 with a conditional treatment
thresholded at 15; asserts the item is still untreated. -/
def testUntreatedBelowThreshold : Bool :=
  let steps := [WoodAction.conditionalTreatment WoodAction.treatWood "MoistureAbove" 15]
  let inv := (emptyInventory.addItem ⟨"Cedar", 22, 12, false, steps⟩).processAll
  match inv.getItems.get? 0 with
  | some it => !it.is_treated
  | none => false

end Wood

namespace Wood

/-- Helper: no action changes an item's thickness (`setMoisture` and
`setTreated` are the only mutators reachable from `perform`). -/
lemma perform_thickness (a : WoodAction) (item : WoodItem) :
    (perform a item).thickness = item.thickness := by
  induction a generalizing item with
  | cutWood l => rfl
  | dryWood => rfl
  | treatWood => rfl
  | conditionalTreatment inner cond val ih =>
      simp only [perform]
      split
      · exact ih item
      · rfl

/-- Helper: no action changes an item's species text. -/
lemma perform_type (a : WoodAction) (item : WoodItem) :
    (perform a item).type = item.type := by
  induction a generalizing item with
  | cutWood l => rfl
  | dryWood => rfl
  | treatWood => rfl
  | conditionalTreatment inner cond val ih =>
      simp only [perform]
      split
      · exact ih item
      · rfl

/-- Helper: no action changes an item's processing-step sequence. -/
lemma perform_steps (a : WoodAction) (item : WoodItem) :
    (perform a item).processing_steps = item.processing_steps := by
  induction a generalizing item with
  | cutWood l => rfl
  | dryWood => rfl
  | treatWood => rfl
  | conditionalTreatment inner cond val ih =>
      simp only [perform]
      split
      · exact ih item
      · rfl

/-- Helper: running a list of steps preserves thickness. -/
lemma processSteps_thickness (l : List WoodAction) (item : WoodItem) :
    (processSteps l item).thickness = item.thickness := by
  induction l generalizing item with
  | nil => rfl
  | cons step rest ih =>
      simp only [processSteps]
      rw [ih, perform_thickness]

/-- Helper: `process` preserves thickness. -/
lemma process_thickness (item : WoodItem) :
    item.process.thickness = item.thickness :=
  processSteps_thickness item.processing_steps item

/-- Helper: no action resets `is_treated` from `true` back to `false`. -/
lemma perform_is_treated_mono (a : WoodAction) (item : WoodItem)
    (h : item.is_treated = true) : (perform a item).is_treated = true := by
  induction a generalizing item with
  | cutWood l => exact h
  | dryWood => exact h
  | treatWood => rfl
  | conditionalTreatment inner cond val ih =>
      simp only [perform]
      split
      · exact ih item h
      · exact h

/-- Helper: running a list of steps never resets `is_treated`. -/
lemma processSteps_is_treated_mono (l : List WoodAction) (item : WoodItem)
    (h : item.is_treated = true) : (processSteps l item).is_treated = true := by
  induction l generalizing item with
  | nil => exact h
  | cons step rest ih =>
      exact ih (perform step item) (perform_is_treated_mono step item h)

/-- Helper: an action never increases a non-negative moisture content, and
keeps it non-negative. -/
lemma perform_moisture_le (a : WoodAction) (item : WoodItem)
    (h : 0 ≤ item.moisture_content) :
    (perform a item).moisture_content ≤ item.moisture_content ∧
      0 ≤ (perform a item).moisture_content := by
  induction a generalizing item with
  | cutWood l => exact ⟨le_refl _, h⟩
  | dryWood =>
      constructor
      · show item.moisture_content * 0.8 ≤ item.moisture_content
        nlinarith
      · show 0 ≤ item.moisture_content * 0.8
        nlinarith
  | treatWood => exact ⟨le_refl _, h⟩
  | conditionalTreatment inner cond val ih =>
      simp only [perform]
      split
      · exact ih item h
      · exact ⟨le_refl _, h⟩

/-- Helper: running a list of steps never increases a non-negative moisture
content, and keeps it non-negative. -/
lemma processSteps_moisture_le (l : List WoodAction) (item : WoodItem)
    (h : 0 ≤ item.moisture_content) :
    (processSteps l item).moisture_content ≤ item.moisture_content ∧
      0 ≤ (processSteps l item).moisture_content := by
  induction l generalizing item with
  | nil => exact ⟨le_refl _, h⟩
  | cons step rest ih =>
      obtain ⟨hle, hpos⟩ := perform_moisture_le step item h
      obtain ⟨hle2, hpos2⟩ := ih (perform step item) hpos
      exact ⟨le_trans hle2 hle, hpos2⟩

/-- Helper: the processing loop is the left fold of `perform` over the step
list. -/
lemma processSteps_eq_foldl (l : List WoodAction) (item : WoodItem) :
    processSteps l item = l.foldl (fun it a => perform a it) item := by
  induction l generalizing item with
  | nil => rfl
  | cons step rest ih =>
      simp only [processSteps, List.foldl]
      exact ih (perform step item)

/-- Helper: a run of `addItem` calls appends the added items in order. -/
lemma addItems_items (l : List WoodItem) (inv : WoodInventory) :
    (addItems inv l).items = inv.items ++ l := by
  induction l generalizing inv with
  | nil => simp [addItems]
  | cons x xs ih =>
      simp only [addItems, List.foldl]
      rw [show xs.foldl WoodInventory.addItem (inv.addItem x) = addItems (inv.addItem x) xs from rfl]
      rw [ih]
      simp [WoodInventory.addItem]

/-- Helper: iterated drying multiplies the moisture by `0.8 ^ n`. -/
lemma dry_iterate_moisture (n : ℕ) (item : WoodItem) :
    ((fun it => perform WoodAction.dryWood it)^[n] item).moisture_content =
      item.moisture_content * 0.8 ^ n := by
  induction n generalizing item with
  | zero => simp
  | succ n ih =>
      rw [Function.iterate_succ_apply, ih]
      show item.moisture_content * 0.8 * 0.8 ^ n = item.moisture_content * 0.8 ^ (n + 1)
      ring

/-- Sanity check: all six test cases of `wood.cpp` evaluate to `true` in
this embedding. -/
lemma all_tests_pass :
    testAddSingleItem = true ∧ testMultipleItemsCount = true ∧
      testProcessDrying = true ∧ testConditionalTreatment = true ∧
      testThicknessUnchanged = true ∧ testUntreatedBelowThreshold = true := by
  refine ⟨?_, ?_, ?_, ?_, ?_, ?_⟩ <;>
    simp only [testAddSingleItem, testMultipleItemsCount, testProcessDrying,
      testConditionalTreatment, testThicknessUnchanged, testUntreatedBelowThreshold,
      emptyInventory, WoodInventory.addItem, WoodInventory.getItems,
      WoodInventory.processAll, WoodItem.process, processSteps, perform,
      List.nil_append, List.map, List.get?, List.length] <;>
    norm_num

/-- C1: wrapping `TreatWood` in a `ConditionalTreatment` with kind
`"MoistureAbove"` and threshold `t` sets `is_treated := true` exactly when
the item's moisture is strictly greater than `t`; otherwise — including
when the moisture equals `t` — the item is left entirely unchanged. -/
theorem conditionalTreat_sets_treated_iff_above (item : WoodItem) (t : ℚ) :
    (item.moisture_content > t →
      perform (WoodAction.conditionalTreatment WoodAction.treatWood "MoistureAbove" t) item =
        { item with is_treated := true }) ∧
    (¬ item.moisture_content > t →
      perform (WoodAction.conditionalTreatment WoodAction.treatWood "MoistureAbove" t) item =
        item) := by
  constructor
  · intro h
    simp [perform, h]
  · intro h
    simp [perform, h]

/-- Witness for C1: a moisture-12 item is treated under threshold 10, and
is left unchanged when the moisture exactly equals the threshold 12. -/
theorem conditionalTreat_sets_treated_iff_above_witness :
    perform (WoodAction.conditionalTreatment WoodAction.treatWood "MoistureAbove" 10)
        ⟨"Walnut", 18, 12, false, []⟩ = ⟨"Walnut", 18, 12, true, []⟩ ∧
    perform (WoodAction.conditionalTreatment WoodAction.treatWood "MoistureAbove" 12)
        ⟨"Cedar", 22, 12, false, []⟩ = ⟨"Cedar", 22, 12, false, []⟩ := by
  constructor
  · exact (conditionalTreat_sets_treated_iff_above ⟨"Walnut", 18, 12, false, []⟩ 10).1
      (by show (12 : ℚ) > 10; norm_num)
  · exact (conditionalTreat_sets_treated_iff_above ⟨"Cedar", 22, 12, false, []⟩ 12).2
      (by show ¬ (12 : ℚ) > 12; norm_num)

/-- C2: one `DryWood` application multiplies the moisture by `0.8`; `n`
successive applications yield `m * 0.8 ^ n`; no other field of the item is
changed by drying. -/
theorem dry_moisture_compounds (item : WoodItem) (n : ℕ) :
    (perform WoodAction.dryWood item).moisture_content = 0.8 * item.moisture_content ∧
    ((fun it => perform WoodAction.dryWood it)^[n] item).moisture_content =
      item.moisture_content * 0.8 ^ n ∧
    (perform WoodAction.dryWood item).type = item.type ∧
    (perform WoodAction.dryWood item).thickness = item.thickness ∧
    (perform WoodAction.dryWood item).is_treated = item.is_treated ∧
    (perform WoodAction.dryWood item).processing_steps = item.processing_steps := by
  refine ⟨?_, dry_iterate_moisture n item, rfl, rfl, rfl, rfl⟩
  show item.moisture_content * 0.8 = 0.8 * item.moisture_content
  ring

/-- C3: no action mutates the thickness, and the thickness after any
number of `process` calls equals the thickness at construction. -/
theorem thickness_invariant :
    (∀ (a : WoodAction) (item : WoodItem), (perform a item).thickness = item.thickness) ∧
    (∀ (n : ℕ) (item : WoodItem), (processN n item).thickness = item.thickness) := by
  refine ⟨perform_thickness, ?_⟩
  intro n
  induction n with
  | zero => intro item; rfl
  | succ n ih =>
      intro item
      show (processN n item.process).thickness = item.thickness
      rw [ih item.process, process_thickness]

/-- C4: after `addItem` is called once per element of `l` on an empty
inventory, the read-only accessor returns exactly `l`: its size is
`l.length` and its `i`-th element is the `i`-th item added. -/
theorem inventory_insertion_order (l : List WoodItem) :
    (addItems emptyInventory l).getItems = l ∧
    (addItems emptyInventory l).getItems.length = l.length ∧
    ∀ i : ℕ, (addItems emptyInventory l).getItems.get? i = l.get? i := by
  have h : (addItems emptyInventory l).getItems = l := by
    show (addItems emptyInventory l).items = l
    rw [addItems_items]
    rfl
  exact ⟨h, by rw [h], fun i => by rw [h]⟩

/-- C5: a single `process` call equals the left-to-right fold of `perform`
over the item's owned action sequence — every action is applied exactly
once, in construction order, with no early termination. -/
theorem process_is_left_fold (item : WoodItem) :
    item.process = item.processing_steps.foldl (fun it a => perform a it) item :=
  processSteps_eq_foldl item.processing_steps item

/-- C6: a `ConditionalTreatment` whose condition kind is any string other
than `"MoistureAbove"` leaves the item entirely unchanged and signals no
error: the dispatch is a total function with a silent no-op default. -/
theorem unrecognized_condition_noop (inner : WoodAction) (cond : String) (val : ℚ)
    (item : WoodItem) (h : cond ≠ "MoistureAbove") :
    perform (WoodAction.conditionalTreatment inner cond val) item = item := by
  simp [perform, h]

/-- Witness for C6: condition kind `"DensityAbove"` is a no-op. -/
theorem unrecognized_condition_noop_witness :
    perform (WoodAction.conditionalTreatment WoodAction.treatWood "DensityAbove" 5)
        ⟨"Pine", 20, 10, false, []⟩ = ⟨"Pine", 20, 10, false, []⟩ :=
  unrecognized_condition_noop WoodAction.treatWood "DensityAbove" 5
    ⟨"Pine", 20, 10, false, []⟩ (by decide)

/-- C7: `TreatWood` sets `is_treated` to `true` regardless of its prior
value, applying it twice equals applying it once, and no other field is
changed. -/
theorem treat_idempotent (item : WoodItem) :
    (perform WoodAction.treatWood item).is_treated = true ∧
    perform WoodAction.treatWood (perform WoodAction.treatWood item) =
      perform WoodAction.treatWood item ∧
    (perform WoodAction.treatWood item).type = item.type ∧
    (perform WoodAction.treatWood item).thickness = item.thickness ∧
    (perform WoodAction.treatWood item).moisture_content = item.moisture_content ∧
    (perform WoodAction.treatWood item).processing_steps = item.processing_steps :=
  ⟨rfl, rfl, rfl, rfl, rfl, rfl⟩

/-- C8: `main` returns exit code 0 for every possible pass or fail outcome
of the six test cases it runs. -/
theorem main_exit_code_zero (r1 r2 r3 r4 r5 r6 : Bool) :
    (mainRun r1 r2 r3 r4 r5 r6).2 = 0 :=
  rfl

/-- C9: `is_treated` is monotone under processing — no action, and hence
no `process` call, ever resets it from `true` back to `false`. -/
theorem is_treated_monotone :
    (∀ (a : WoodAction) (item : WoodItem), item.is_treated = true →
      (perform a item).is_treated = true) ∧
    (∀ item : WoodItem, item.is_treated = true → item.process.is_treated = true) :=
  ⟨perform_is_treated_mono,
   fun item h => processSteps_is_treated_mono item.processing_steps item h⟩

/-- Witness for C9: a treated Maple item is still treated after a
`process` call that dries it. -/
theorem is_treated_monotone_witness :
    (⟨"Maple", 30, 8, true, [WoodAction.dryWood]⟩ : WoodItem).process.is_treated = true :=
  is_treated_monotone.2 ⟨"Maple", 30, 8, true, [WoodAction.dryWood]⟩ rfl

/-- C10: starting from non-negative moisture, no action increases the
moisture content, and a `process` call never increases it. -/
theorem moisture_nonincreasing :
    (∀ (a : WoodAction) (item : WoodItem), 0 ≤ item.moisture_content →
      (perform a item).moisture_content ≤ item.moisture_content) ∧
    (∀ item : WoodItem, 0 ≤ item.moisture_content →
      item.process.moisture_content ≤ item.moisture_content) :=
  ⟨fun a item h => (perform_moisture_le a item h).1,
   fun item h => (processSteps_moisture_le item.processing_steps item h).1⟩

/-- Witness for C10: a moisture-15 Teak item with one drying step does not
gain moisture from a `process` call. -/
theorem moisture_nonincreasing_witness :
    (⟨"Teak", 15, 15, false, [WoodAction.dryWood]⟩ : WoodItem).process.moisture_content ≤
      (⟨"Teak", 15, 15, false, [WoodAction.dryWood]⟩ : WoodItem).moisture_content :=
  moisture_nonincreasing.2 ⟨"Teak", 15, 15, false, [WoodAction.dryWood]⟩
    (by show (0 : ℚ) ≤ 15; norm_num)

end Wood
